import Mathlib

/-!
Verification development for newProcess3.py: a pipeline that converts
synthesis-route trees (JSON) into a per-route hypergraph.  The Python
source is shallowly embedded below: JSON values become the inductive
type JVal, the stateful depth-first reducer becomes the state-passing
function dfs, the assembler becomes build_hypergraph_per_route, and the
CSV emitters become row-table builders.  Python sets are modelled as
duplicate-free lists in first-insertion order; the one place the code
iterates a set (the incidence emission loop) is parameterized by an
iteration order, since CPython set iteration order depends on the
process hash seed.
-/

/-- JSON values as parsed by json.loads.  Numbers are modelled as Int
(no claim involves numeric payloads).  An object is a field list; as in
Python dicts built from JSON text, a later binding of the same key wins. -/
inductive JVal where
  | jnull : JVal
  | jbool : Bool → JVal
  | jnum : Int → JVal
  | jstr : String → JVal
  | jarr : List JVal → JVal
  | jobj : List (String × JVal) → JVal

/-- Embedding of dict.get(k) on the field list of an object: the last
binding of the key wins, missing keys give none. -/
def getKey : List (String × JVal) → String → Option JVal
  | [], _ => none
  | (k2, v) :: rest, k =>
      match getKey rest k with
      | some r => some r
      | none => if k2 = k then some v else none

/-- Embedding of isinstance(x, dict). -/
def isDictV : JVal → Bool
  | JVal.jobj _ => true
  | _ => false

/-- Embedding of isinstance(x, list). -/
def isArrV : JVal → Bool
  | JVal.jarr _ => true
  | _ => false

/-- Embedding of str.strip(): drop whitespace from both ends.  Python
also strips a few exotic Unicode whitespace characters not covered by
Char.isWhitespace; no claim exercises those. -/
def pyStrip (s : String) : String :=
  String.mk (((s.toList.dropWhile Char.isWhitespace).reverse.dropWhile
    Char.isWhitespace).reverse)

/-- Embedding of set.add on a set modelled as a duplicate-free list in
first-insertion order. -/
def insertMol (mols : List String) (s : String) : List String :=
  if s ∈ mols then mols else mols ++ [s]

/-- Adding every element of a list to the set, in order.  Models both
repeated set.add calls and the set-union update all_mols |= mols. -/
def addAll (mols : List String) (l : List String) : List String :=
  l.foldl insertMol mols

/-- Embedding of (node.get("children") or []) as iterated by dfs.  A
missing, null, false, empty or non-array children value contributes no
child dicts; iterating a string or a dict in Python would visit only
non-dict values, which dfs ignores, so those cases are also the empty
list (a truthy non-iterable children value would raise TypeError in
Python; no claim concerns that crash). -/
def childrenOf (fields : List (String × JVal)) : List JVal :=
  match getKey fields "children" with
  | some (JVal.jarr items) => items
  | _ => []

theorem mem_of_getKey_eq {fields : List (String × JVal)} {k : String} {v : JVal}
    (h : getKey fields k = some v) : (k, v) ∈ fields := by
  induction fields with
  | nil => simp [getKey] at h
  | cons p rest ih =>
      obtain ⟨k2, v2⟩ := p
      rw [getKey] at h
      cases hr : getKey rest k with
      | some r =>
          rw [hr] at h
          simp only [Option.some.injEq] at h
          subst h
          exact List.mem_cons_of_mem _ (ih hr)
      | none =>
          rw [hr] at h
          by_cases hk : k2 = k
          · simp only [hk, if_pos] at h
            simp only [Option.some.injEq] at h
            subst hk
            subst h
            exact List.mem_cons_self _ _
          · simp [hk] at h

theorem sizeOf_getKey_lt {fields : List (String × JVal)} {k : String} {v : JVal}
    (h : getKey fields k = some v) : sizeOf v < sizeOf fields := by
  have hmem : (k, v) ∈ fields := mem_of_getKey_eq h
  have h1 : sizeOf (k, v) < sizeOf fields := List.sizeOf_lt_of_mem hmem
  have h2 : sizeOf v < sizeOf (k, v) := by
    simp only [Prod.mk.sizeOf_spec]
    omega
  omega

theorem sizeOf_list_pos (l : List (String × JVal)) : 1 ≤ sizeOf l := by
  cases l with
  | nil => simp
  | cons x xs => simp; omega

theorem sizeOf_childrenOf_lt (fields : List (String × JVal)) :
    sizeOf (childrenOf fields) < sizeOf (JVal.jobj fields) := by
  have hpos : 1 ≤ sizeOf fields := sizeOf_list_pos fields
  unfold childrenOf
  cases hc : getKey fields "children" with
  | none => simp; omega
  | some v =>
      have hv := sizeOf_getKey_lt hc
      cases v with
      | jnull => simp; omega
      | jbool b => simp; omega
      | jnum n => simp; omega
      | jstr s => simp; omega
      | jarr items => simp at hv ⊢; omega
      | jobj f2 => simp; omega

/-- State update a single dict node applies before recursing into its
children (lines 62-77 of the source): a mol node with a non-empty
string smiles adds it to the set, a reaction node bumps the counter,
everything else leaves the state unchanged. -/
def stepState (fields : List (String × JVal)) (st : List String × Nat) :
    List String × Nat :=
  match getKey fields "type" with
  | some (JVal.jstr t) =>
      if t = "mol" then
        match getKey fields "smiles" with
        | some (JVal.jstr smi) =>
            if smi = "" then st else (insertMol st.1 smi, st.2)
        | _ => st
      else if t = "reaction" then (st.1, st.2 + 1)
      else st
  | _ => st

/-- Molecule identifiers the node itself contributes. -/
def headMols (fields : List (String × JVal)) : List String :=
  match getKey fields "type" with
  | some (JVal.jstr t) =>
      if t = "mol" then
        match getKey fields "smiles" with
        | some (JVal.jstr smi) => if smi = "" then [] else [smi]
        | _ => []
      else []
  | _ => []

/-- Reaction count the node itself contributes. -/
def headRxn (fields : List (String × JVal)) : Nat :=
  match getKey fields "type" with
  | some (JVal.jstr t) => if t = "reaction" then 1 else 0
  | _ => 0

mutual

/-- Embedding of the inner dfs of gather_molecules_and_reaction_count.
The nonlocal state (mols, rxn_cnt) is passed explicitly.  On a dict the
type discriminant selects the state update, then every branch recurses
into the children; non-dict nodes contribute nothing. -/
def dfs (node : JVal) (st : List String × Nat) : List String × Nat :=
  match node with
  | JVal.jobj fields => dfsList (childrenOf fields) (stepState fields st)
  | _ => st
termination_by sizeOf node
decreasing_by
  apply sizeOf_childrenOf_lt

/-- Folding dfs over a list of children, left to right. -/
def dfsList (nodes : List JVal) (st : List String × Nat) : List String × Nat :=
  match nodes with
  | [] => st
  | c :: cs => dfsList cs (dfs c st)
termination_by sizeOf nodes
decreasing_by
  all_goals simp
  all_goals omega

end

/-- Embedding of gather_molecules_and_reaction_count: run dfs from the
root with an empty molecule set and a zero reaction count. -/
def gather_molecules_and_reaction_count (route : JVal) : List String × Nat :=
  dfs route ([], 0)

mutual

/-- Preorder list of the molecule identifier occurrences dfs collects
(with duplicates); proof-side companion of dfs. -/
def molsOf (node : JVal) : List String :=
  match node with
  | JVal.jobj fields => headMols fields ++ molsOfList (childrenOf fields)
  | _ => []
termination_by sizeOf node
decreasing_by
  apply sizeOf_childrenOf_lt

/-- Concatenation of molsOf over a list of children. -/
def molsOfList (nodes : List JVal) : List String :=
  match nodes with
  | [] => []
  | c :: cs => molsOf c ++ molsOfList cs
termination_by sizeOf nodes
decreasing_by
  all_goals simp
  all_goals omega

end

mutual

/-- Number of reaction-typed nodes dfs counts; proof-side companion. -/
def rxnOf (node : JVal) : Nat :=
  match node with
  | JVal.jobj fields => headRxn fields + rxnOfList (childrenOf fields)
  | _ => 0
termination_by sizeOf node
decreasing_by
  apply sizeOf_childrenOf_lt

/-- Sum of rxnOf over a list of children. -/
def rxnOfList (nodes : List JVal) : Nat :=
  match nodes with
  | [] => 0
  | c :: cs => rxnOf c + rxnOfList cs
termination_by sizeOf nodes
decreasing_by
  all_goals simp
  all_goals omega

end

theorem addAll_nil (m : List String) : addAll m [] = m := rfl

theorem addAll_append (m : List String) (l1 l2 : List String) :
    addAll m (l1 ++ l2) = addAll (addAll m l1) l2 := by
  simp [addAll, List.foldl_append]

theorem stepState_eq (fields : List (String × JVal)) (st : List String × Nat) :
    stepState fields st = (addAll st.1 (headMols fields), st.2 + headRxn fields) := by
  obtain ⟨m, c⟩ := st
  unfold stepState headMols headRxn
  cases getKey fields "type" with
  | none => simp [addAll]
  | some v =>
      cases v with
      | jnull => simp [addAll]
      | jbool b => simp [addAll]
      | jnum n => simp [addAll]
      | jarr l => simp [addAll]
      | jobj f2 => simp [addAll]
      | jstr t =>
          by_cases hmol : t = "mol"
          · simp only [hmol, if_pos]
            cases getKey fields "smiles" with
            | none => simp [addAll]
            | some w =>
                cases w with
                | jnull => simp [addAll]
                | jbool b => simp [addAll]
                | jnum n => simp [addAll]
                | jarr l => simp [addAll]
                | jobj f2 => simp [addAll]
                | jstr smi =>
                    by_cases hs : smi = ""
                    · simp [hs, addAll]
                    · simp [hs, addAll]
          · by_cases hrxn : t = "reaction"
            · simp [hmol, hrxn, addAll]
            · simp [hmol, hrxn, addAll]

mutual

theorem dfs_spec (node : JVal) (st : List String × Nat) :
    dfs node st = (addAll st.1 (molsOf node), st.2 + rxnOf node) := by
  cases node with
  | jobj fields =>
      rw [dfs, molsOf, rxnOf,
        dfsList_spec (childrenOf fields) (stepState fields st),
        stepState_eq, addAll_append]
      simp [Nat.add_assoc]
  | jnull => simp [dfs, molsOf, rxnOf, addAll]
  | jbool b => simp [dfs, molsOf, rxnOf, addAll]
  | jnum n => simp [dfs, molsOf, rxnOf, addAll]
  | jstr s => simp [dfs, molsOf, rxnOf, addAll]
  | jarr l => simp [dfs, molsOf, rxnOf, addAll]
termination_by sizeOf node
decreasing_by
  apply sizeOf_childrenOf_lt

theorem dfsList_spec (nodes : List JVal) (st : List String × Nat) :
    dfsList nodes st = (addAll st.1 (molsOfList nodes), st.2 + rxnOfList nodes) := by
  cases nodes with
  | nil => simp [dfsList, molsOfList, rxnOfList, addAll]
  | cons c cs =>
      rw [dfsList, dfs_spec c st, dfsList_spec cs _, molsOfList, rxnOfList,
        addAll_append]
      simp [Nat.add_assoc]
termination_by sizeOf nodes
decreasing_by
  all_goals simp
  all_goals omega

end

theorem gather_eq (route : JVal) :
    gather_molecules_and_reaction_count route = (addAll [] (molsOf route), rxnOf route) := by
  rw [gather_molecules_and_reaction_count, dfs_spec]
  simp

/-- Per-route metadata record of the assembler (edge_id, edge_name,
target, reaction_count). -/
structure RouteMeta where
  edge_id : Nat
  edge_name : String
  target : String
  reaction_count : Nat
deriving DecidableEq

/-- Candidate edge name taken from the name field (line 112-113): a
string value whose strip() is non-blank, emitted stripped. -/
def pickName : Option JVal → Option String
  | some (JVal.jstr n) => if pyStrip n = "" then none else some (pyStrip n)
  | _ => none

/-- Candidate string taken from the smiles field (lines 114-117): a
non-empty string value, emitted verbatim. -/
def pickSmiles : Option JVal → Option String
  | some (JVal.jstr s) => if s = "" then none else some s
  | _ => none

/-- Embedding of route.get("type") == "mol": a Python == against the
string "mol" is true only for an equal string value. -/
def isMolType : Option JVal → Bool
  | some (JVal.jstr t) => t == "mol"
  | _ => false

/-- Embedding of lines 105-117: only a dict root whose type is "mol"
may name the edge; preferred name, else smiles; the target is the
non-empty smiles when present, else empty. -/
def rootNameTarget (route : JVal) : Option String × String :=
  match route with
  | JVal.jobj fields =>
      if isMolType (getKey fields "type") then
        ((pickName (getKey fields "name")).orElse
           (fun _ => pickSmiles (getKey fields "smiles")),
         (pickSmiles (getKey fields "smiles")).getD "")
      else (none, "")
  | _ => (none, "")

/-- Embedding of lines 119-120: if not edge_name (None, or the empty
string, both falsy) the synthetic name route_i is used. -/
def finalEdgeName (nameOpt : Option String) (edge_id : Nat) : String :=
  match nameOpt with
  | some s => if s = "" then "route_" ++ toString edge_id else s
  | none => "route_" ++ toString edge_id

/-- One metadata record of the assembler loop body (lines 104-132). -/
def mkMeta (route : JVal) (rc : Nat) (edge_id : Nat) : RouteMeta :=
  { edge_id := edge_id,
    edge_name := finalEdgeName (rootNameTarget route).1 edge_id,
    target := (rootNameTarget route).2,
    reaction_count := rc }

/-- Metadata rows for consecutive edge ids: embedding of the enumerate
loop over (route, reaction count) pairs. -/
def metasFrom : List (JVal × Nat) → Nat → List RouteMeta
  | [], _ => []
  | rp :: rest, i => mkMeta rp.1 rp.2 i :: metasFrom rest (i + 1)

/-- Incidence pairs (lines 122-125): for edge i, one (molecule id, i)
pair per molecule of the route set, in the set-iteration order ord. -/
def pairsFrom (molToId : String → Nat) (ord : List String → List String) :
    List (List String) → Nat → List (Nat × Nat)
  | [], _ => []
  | mols :: rest, i =>
      (ord mols).map (fun s => (molToId s, i)) ++ pairsFrom molToId ord rest (i + 1)

/-- Lexicographic comparison of char lists by code point: the order
Python sorted() uses on strings. -/
def strLeChars : List Char → List Char → Bool
  | [], _ => true
  | _ :: _, [] => false
  | a :: as, b :: bs =>
      if a.toNat < b.toNat then true
      else if b.toNat < a.toNat then false
      else strLeChars as bs

/-- Lexicographic string comparison by Unicode code point, the total
order sorted() applies to the molecule identifier strings. -/
def strLe (a b : String) : Bool := strLeChars a.toList b.toList

/-- Embedding of sorted() on a list of strings. -/
def sortMols (l : List String) : List String :=
  List.insertionSort (fun a b => strLe a b = true) l

/-- Result of build_hypergraph_per_route: hyperedge_index as the two
parallel rows (top, bot) of the 2 x N tensor, the global identifier
table, and the per-route metadata. -/
structure BuildResult where
  top : List Nat
  bot : List Nat
  id_to_mol : List String
  routes_meta : List RouteMeta
deriving DecidableEq

/-- Assembly stage of build_hypergraph_per_route, given the per-route
reducer results.  The identifier table is sorted(all_mols); mol_to_id
maps each table entry to its position; the incidence loop iterates each
route set in the order ord. -/
def assemble (ord : List String → List String) (routes : List JVal)
    (results : List (List String × Nat)) : BuildResult :=
  let route_mols_list := results.map Prod.fst
  let route_rxn_counts := results.map Prod.snd
  let all_mols := route_mols_list.foldl addAll []
  let id_to_mol := sortMols all_mols
  let mol_to_id := fun s => List.indexOf s id_to_mol
  let pairs := pairsFrom mol_to_id ord route_mols_list 0
  { top := pairs.map Prod.fst,
    bot := pairs.map Prod.snd,
    id_to_mol := id_to_mol,
    routes_meta := metasFrom (routes.zip route_rxn_counts) 0 }

/-- build_hypergraph_per_route with an explicit set-iteration order. -/
def buildOrdered (ord : List String → List String) (routes : List JVal) :
    BuildResult :=
  assemble ord routes (routes.map gather_molecules_and_reaction_count)

/-- Canonical set-iteration order of the deterministic embedding:
first-insertion order. -/
def idOrder : List String → List String := fun l => l

/-- Another legitimate set-iteration order (a permutation), used to
exhibit the order dependence of the incidence pair sequence. -/
def revOrder : List String → List String := fun l => l.reverse

/-- Embedding of build_hypergraph_per_route (lines 84-135) under the
canonical iteration order. -/
def build_hypergraph_per_route (routes : List JVal) : BuildResult :=
  buildOrdered idOrder routes

/-- Embedding of lines 45-50 of load_routes: the whole-document branch.
A dict becomes a singleton list, a list keeps its dict elements in
order, anything else raises ValueError. -/
def routesFromDoc (data : JVal) : Except String (List JVal) :=
  match data with
  | JVal.jobj fields => Except.ok [JVal.jobj fields]
  | JVal.jarr items => Except.ok (items.filter (fun x => isDictV x))
  | _ => Except.error "Unrecognized JSON structure."

/-- Rows of route_nodes.csv after the header: the enumerate loop. -/
def nodeRowsFrom : Nat → List String → List (List String)
  | _, [] => []
  | i, s :: rest => [toString i, s] :: nodeRowsFrom (i + 1) rest

/-- route_nodes.csv as a row table (including the header row). -/
def nodesTable (id_to_mol : List String) : List (List String) :=
  ["node_id", "smiles"] :: nodeRowsFrom 0 id_to_mol

/-- route_edges.csv as a row table (including the header row). -/
def edgesTable (metas : List RouteMeta) : List (List String) :=
  ["edge_id", "edge_name", "target", "reaction_count"] ::
    metas.map (fun e => [toString e.edge_id, e.edge_name, e.target,
      toString e.reaction_count])

/-- Embedding of the dict id2name of save_csvs with its .get default:
the last metadata record with the given edge_id wins. -/
def metaName (metas : List RouteMeta) (e : Nat) : String :=
  match metas.reverse.find? (fun mm => mm.edge_id == e) with
  | some mm => mm.edge_name
  | none => "route_" ++ toString e

/-- Embedding of the dict id2target of save_csvs with its .get default. -/
def metaTarget (metas : List RouteMeta) (e : Nat) : String :=
  match metas.reverse.find? (fun mm => mm.edge_id == e) with
  | some mm => mm.target
  | none => ""

/-- route_incidence.csv as a row table.  Python indexes id_to_mol with
the node id, which is always in range for pipeline output (proved
below); the out-of-range case, where Python would raise IndexError, is
modelled as the empty string. -/
def incidenceTable (top bot : List Nat) (id_to_mol : List String)
    (metas : List RouteMeta) : List (List String) :=
  ["node_id", "smiles", "edge_id", "edge_name", "target_smiles"] ::
    (top.zip bot).map (fun p =>
      [toString p.1, id_to_mol.getD p.1 "", toString p.2,
       metaName metas p.2, metaTarget metas p.2])

/-- The four output artifacts of one run: the bundle saved to the .pt
file and the three CSV row tables. -/
structure Artifacts where
  bundle : BuildResult
  nodes_csv : List (List String)
  edges_csv : List (List String)
  incidence_csv : List (List String)
deriving DecidableEq

/-- All four artifacts derived from one build result, as main does. -/
def artifactsOf (b : BuildResult) : Artifacts :=
  { bundle := b,
    nodes_csv := nodesTable b.id_to_mol,
    edges_csv := edgesTable b.routes_meta,
    incidence_csv := incidenceTable b.top b.bot b.id_to_mol b.routes_meta }

/-- The four artifacts of a run over the given routes. -/
def mkArtifactsOrdered (ord : List String → List String)
    (routes : List JVal) : Artifacts :=
  artifactsOf (buildOrdered ord routes)

/-- Embedding of main from the loader result onward (lines 181-195):
abort on loader failure, abort on an empty route list, otherwise
produce all four artifacts from one build result.  An error run yields
no artifact value at all, modelling that the run aborts before any of
the four files is written. -/
def runPipelineOrdered (ord : List String → List String)
    (loaded : Except String (List JVal)) : Except String Artifacts :=
  match loaded with
  | Except.error e => Except.error e
  | Except.ok routes =>
      if routes.isEmpty then Except.error "No routes loaded."
      else Except.ok (mkArtifactsOrdered ord routes)

/-- The pipeline under the canonical set-iteration order. -/
def runMain (loaded : Except String (List JVal)) : Except String Artifacts :=
  runPipelineOrdered idOrder loaded

/-- Molecule node with the given smiles. -/
def molNode (s : String) : JVal :=
  JVal.jobj [("type", JVal.jstr "mol"), ("smiles", JVal.jstr s)]

/-- Reaction node of route A from the concrete spec scenario, carrying
the smiles "HIDDEN" that must not leak into any output. -/
def rxnNodeA : JVal :=
  JVal.jobj [("type", JVal.jstr "reaction"), ("smiles", JVal.jstr "HIDDEN"),
    ("children", JVal.jarr [molNode "CC"])]

/-- Route A of the concrete spec scenario. -/
def routeA : JVal :=
  JVal.jobj [("type", JVal.jstr "mol"), ("name", JVal.jstr "P1"),
    ("smiles", JVal.jstr "CCO"), ("children", JVal.jarr [rxnNodeA])]

/-- Route B of the concrete spec scenario. -/
def routeB : JVal :=
  JVal.jobj [("type", JVal.jstr "reaction"),
    ("children", JVal.jarr [molNode "CC"])]

theorem one_le_sizeOf_jval (j : JVal) : 1 ≤ sizeOf j := by
  cases j <;> simp

/-- Fuel-indexed structural twin of molsOf, used to evaluate the
reducer on concrete inputs by kernel reduction. -/
def molsFuel : Nat → JVal → List String
  | 0, _ => []
  | fuel + 1, JVal.jobj fields =>
      headMols fields ++
        ((childrenOf fields).map (fun c => molsFuel fuel c)).flatten
  | _ + 1, _ => []

/-- Fuel-indexed structural twin of rxnOf. -/
def rxnFuel : Nat → JVal → Nat
  | 0, _ => 0
  | fuel + 1, JVal.jobj fields =>
      headRxn fields + ((childrenOf fields).map (fun c => rxnFuel fuel c)).sum
  | _ + 1, _ => 0

theorem molsFuel_list_aux (f : Nat)
    (ih : ∀ node : JVal, sizeOf node ≤ f → molsFuel f node = molsOf node) :
    ∀ nodes : List JVal, sizeOf nodes ≤ f + 1 →
      (nodes.map (fun c => molsFuel f c)).flatten = molsOfList nodes := by
  intro nodes
  induction nodes with
  | nil =>
      intro _
      rw [molsOfList]
      simp
  | cons c cs ihl =>
      intro hn
      have hsz : sizeOf (c :: cs) = 1 + sizeOf c + sizeOf cs := by simp
      have hc : sizeOf c ≤ f := by omega
      have hcs : sizeOf cs ≤ f + 1 := by omega
      rw [List.map_cons, List.flatten_cons, molsOfList, ih c hc, ihl hcs]

theorem molsFuel_spec : ∀ (fuel : Nat) (node : JVal), sizeOf node ≤ fuel →
    molsFuel fuel node = molsOf node := by
  intro fuel
  induction fuel with
  | zero =>
      intro node h
      have := one_le_sizeOf_jval node
      omega
  | succ f ih =>
      intro node h
      cases node with
      | jobj fields =>
          rw [molsOf]
          simp only [molsFuel]
          have hch : sizeOf (childrenOf fields) < sizeOf (JVal.jobj fields) :=
            sizeOf_childrenOf_lt fields
          rw [molsFuel_list_aux f ih (childrenOf fields) (by omega)]
      | jnull => simp [molsFuel, molsOf]
      | jbool b => simp [molsFuel, molsOf]
      | jnum n => simp [molsFuel, molsOf]
      | jstr s => simp [molsFuel, molsOf]
      | jarr l => simp [molsFuel, molsOf]

theorem rxnFuel_list_aux (f : Nat)
    (ih : ∀ node : JVal, sizeOf node ≤ f → rxnFuel f node = rxnOf node) :
    ∀ nodes : List JVal, sizeOf nodes ≤ f + 1 →
      (nodes.map (fun c => rxnFuel f c)).sum = rxnOfList nodes := by
  intro nodes
  induction nodes with
  | nil =>
      intro _
      rw [rxnOfList]
      simp
  | cons c cs ihl =>
      intro hn
      have hsz : sizeOf (c :: cs) = 1 + sizeOf c + sizeOf cs := by simp
      have hc : sizeOf c ≤ f := by omega
      have hcs : sizeOf cs ≤ f + 1 := by omega
      rw [List.map_cons, List.sum_cons, rxnOfList, ih c hc, ihl hcs]

theorem rxnFuel_spec : ∀ (fuel : Nat) (node : JVal), sizeOf node ≤ fuel →
    rxnFuel fuel node = rxnOf node := by
  intro fuel
  induction fuel with
  | zero =>
      intro node h
      have := one_le_sizeOf_jval node
      omega
  | succ f ih =>
      intro node h
      cases node with
      | jobj fields =>
          rw [rxnOf]
          simp only [rxnFuel]
          have hch : sizeOf (childrenOf fields) < sizeOf (JVal.jobj fields) :=
            sizeOf_childrenOf_lt fields
          rw [rxnFuel_list_aux f ih (childrenOf fields) (by omega)]
      | jnull => simp [rxnFuel, rxnOf]
      | jbool b => simp [rxnFuel, rxnOf]
      | jnum n => simp [rxnFuel, rxnOf]
      | jstr s => simp [rxnFuel, rxnOf]
      | jarr l => simp [rxnFuel, rxnOf]

theorem gather_exec (route : JVal) :
    gather_molecules_and_reaction_count route =
      (addAll [] (molsFuel (sizeOf route) route), rxnFuel (sizeOf route) route) := by
  rw [gather_eq,
    molsFuel_spec (sizeOf route) route (Nat.le_refl _),
    rxnFuel_spec (sizeOf route) route (Nat.le_refl _)]

theorem buildOrdered_exec (ord : List String → List String) (routes : List JVal) :
    buildOrdered ord routes = assemble ord routes
      (routes.map (fun r =>
        (addAll [] (molsFuel (sizeOf r) r), rxnFuel (sizeOf r) r))) := by
  rw [buildOrdered]
  have hf : gather_molecules_and_reaction_count = (fun r =>
      (addAll [] (molsFuel (sizeOf r) r), rxnFuel (sizeOf r) r)) :=
    funext gather_exec
  rw [hf]

theorem mem_insertMol {a s : String} {m : List String} :
    a ∈ insertMol m s ↔ a ∈ m ∨ a = s := by
  unfold insertMol
  by_cases h : s ∈ m
  · simp only [h, if_pos]
    constructor
    · exact Or.inl
    · rintro (h1 | rfl)
      · exact h1
      · exact h
  · simp [h]

theorem nodup_insertMol {s : String} {m : List String} (hm : m.Nodup) :
    (insertMol m s).Nodup := by
  unfold insertMol
  by_cases h : s ∈ m
  · simp only [h, if_pos]
    exact hm
  · simp only [h, if_neg]
    refine List.nodup_append.mpr ⟨hm, List.nodup_singleton s, ?_⟩
    intro a ha hs
    simp only [List.mem_singleton] at hs
    subst hs
    exact h ha

theorem mem_addAll {a : String} : ∀ (l m : List String),
    a ∈ addAll m l ↔ a ∈ m ∨ a ∈ l := by
  intro l
  induction l with
  | nil => intro m; simp [addAll]
  | cons x xs ih =>
      intro m
      show a ∈ addAll (insertMol m x) xs ↔ _
      rw [ih, mem_insertMol]
      simp only [List.mem_cons]
      tauto

theorem nodup_addAll : ∀ (l m : List String), m.Nodup → (addAll m l).Nodup := by
  intro l
  induction l with
  | nil => intro m hm; exact hm
  | cons x xs ih =>
      intro m hm
      exact ih (insertMol m x) (nodup_insertMol hm)

theorem mem_foldl_addAll {a : String} : ∀ (L : List (List String)) (init : List String),
    a ∈ L.foldl addAll init ↔ a ∈ init ∨ ∃ l ∈ L, a ∈ l := by
  intro L
  induction L with
  | nil => intro init; simp
  | cons x xs ih =>
      intro init
      show a ∈ xs.foldl addAll (addAll init x) ↔ _
      rw [ih, mem_addAll]
      simp only [List.mem_cons]
      constructor
      · rintro ((h | h) | ⟨l, hl, hal⟩)
        · exact Or.inl h
        · exact Or.inr ⟨x, Or.inl rfl, h⟩
        · exact Or.inr ⟨l, Or.inr hl, hal⟩
      · rintro (h | ⟨l, (rfl | hl), hal⟩)
        · exact Or.inl (Or.inl h)
        · exact Or.inl (Or.inr hal)
        · exact Or.inr ⟨l, hl, hal⟩

theorem nodup_foldl_addAll : ∀ (L : List (List String)) (init : List String),
    init.Nodup → (L.foldl addAll init).Nodup := by
  intro L
  induction L with
  | nil => intro init h; exact h
  | cons x xs ih =>
      intro init h
      exact ih (addAll init x) (nodup_addAll x init h)

theorem strLeChars_total : ∀ (a b : List Char),
    strLeChars a b = true ∨ strLeChars b a = true := by
  intro a
  induction a with
  | nil => intro b; left; rfl
  | cons x xs ih =>
      intro b
      cases b with
      | nil => right; rfl
      | cons y ys =>
          rw [strLeChars, strLeChars]
          by_cases h1 : x.toNat < y.toNat
          · left; simp [h1]
          · by_cases h2 : y.toNat < x.toNat
            · right; simp [h1, h2]
            · simp only [h1, h2, if_neg, if_pos]
              exact ih ys

theorem strLeChars_trans : ∀ (a b c : List Char), strLeChars a b = true →
    strLeChars b c = true → strLeChars a c = true := by
  intro a
  induction a with
  | nil => intro b c _ _; rfl
  | cons x xs ih =>
      intro b c hab hbc
      cases b with
      | nil => rw [strLeChars] at hab; exact absurd hab (by simp)
      | cons y ys =>
          cases c with
          | nil => rw [strLeChars] at hbc; exact absurd hbc (by simp)
          | cons z zs =>
              rw [strLeChars] at hab hbc ⊢
              by_cases h1 : x.toNat < y.toNat
              · by_cases h2 : y.toNat < z.toNat
                · have h3 : x.toNat < z.toNat := by omega
                  simp [h3]
                · by_cases h3 : z.toNat < y.toNat
                  · simp [h2, h3] at hbc
                  · have h4 : x.toNat < z.toNat := by omega
                    simp [h4]
              · by_cases h4 : y.toNat < x.toNat
                · simp [h1, h4] at hab
                · by_cases h2 : y.toNat < z.toNat
                  · have h5 : x.toNat < z.toNat := by omega
                    simp [h5]
                  · by_cases h3 : z.toNat < y.toNat
                    · simp [h2, h3] at hbc
                    · have h6 : ¬ x.toNat < z.toNat := by omega
                      have h7 : ¬ z.toNat < x.toNat := by omega
                      simp only [h1, h4, if_neg] at hab
                      simp only [h2, h3, if_neg] at hbc
                      simp only [h6, h7, if_neg]
                      exact ih ys zs hab hbc

theorem strLeChars_antisymm : ∀ (a b : List Char), strLeChars a b = true →
    strLeChars b a = true → a = b := by
  intro a
  induction a with
  | nil =>
      intro b _ hba
      cases b with
      | nil => rfl
      | cons y ys => rw [strLeChars] at hba; exact absurd hba (by simp)
  | cons x xs ih =>
      intro b hab hba
      cases b with
      | nil => rw [strLeChars] at hab; exact absurd hab (by simp)
      | cons y ys =>
          rw [strLeChars] at hab hba
          by_cases h1 : x.toNat < y.toNat
          · have h2 : ¬ y.toNat < x.toNat := by omega
            simp [h1, h2] at hba
          · by_cases h2 : y.toNat < x.toNat
            · simp [h1, h2] at hab
            · simp only [h1, h2, if_neg] at hab hba
              have hval : x.toNat = y.toNat := by omega
              simp only [Char.toNat, UInt32.toNat] at hval
              have hx : x = y := Char.ext (UInt32.ext hval)
              rw [hx, ih ys hab hba]

theorem strLe_total (a b : String) : strLe a b = true ∨ strLe b a = true :=
  strLeChars_total a.toList b.toList

theorem strLe_trans {a b c : String} (h1 : strLe a b = true)
    (h2 : strLe b c = true) : strLe a c = true :=
  strLeChars_trans a.toList b.toList c.toList h1 h2

theorem strLe_antisymm {a b : String} (h1 : strLe a b = true)
    (h2 : strLe b a = true) : a = b := by
  have h := strLeChars_antisymm a.toList b.toList h1 h2
  obtain ⟨da⟩ := a
  obtain ⟨db⟩ := b
  exact congrArg String.mk h

instance instIsTotalStrLe : IsTotal String (fun a b => strLe a b = true) :=
  ⟨strLe_total⟩

instance instIsTransStrLe : IsTrans String (fun a b => strLe a b = true) :=
  ⟨fun _ _ _ => strLe_trans⟩

instance instIsAntisymmStrLe : IsAntisymm String (fun a b => strLe a b = true) :=
  ⟨fun _ _ => strLe_antisymm⟩

theorem sortMols_perm (l : List String) : List.Perm (sortMols l) l :=
  List.perm_insertionSort _ l

theorem sortMols_mem (a : String) (l : List String) :
    a ∈ sortMols l ↔ a ∈ l :=
  (sortMols_perm l).mem_iff

theorem sortMols_sorted (l : List String) :
    List.Sorted (fun a b => strLe a b = true) (sortMols l) :=
  List.sorted_insertionSort _ l

theorem sortMols_nodup {l : List String} (h : l.Nodup) :
    (sortMols l).Nodup :=
  ((sortMols_perm l).nodup_iff).mpr h

theorem sortMols_ext {l1 l2 : List String} (h1 : l1.Nodup) (h2 : l2.Nodup)
    (hm : ∀ a, a ∈ l1 ↔ a ∈ l2) : sortMols l1 = sortMols l2 := by
  have p : List.Perm (sortMols l1) (sortMols l2) :=
    ((sortMols_perm l1).trans
      ((List.perm_ext_iff_of_nodup h1 h2).mpr hm)).trans (sortMols_perm l2).symm
  exact List.eq_of_perm_of_sorted p (sortMols_sorted l1) (sortMols_sorted l2)

theorem assemble_id_to_mol (ord : List String → List String) (routes : List JVal)
    (results : List (List String × Nat)) :
    (assemble ord routes results).id_to_mol =
      sortMols ((results.map Prod.fst).foldl addAll []) := rfl

theorem assemble_routes_meta (ord : List String → List String) (routes : List JVal)
    (results : List (List String × Nat)) :
    (assemble ord routes results).routes_meta =
      metasFrom (routes.zip (results.map Prod.snd)) 0 := rfl

theorem assemble_top (ord : List String → List String) (routes : List JVal)
    (results : List (List String × Nat)) :
    (assemble ord routes results).top =
      (pairsFrom
        (fun s => List.indexOf s (sortMols ((results.map Prod.fst).foldl addAll [])))
        ord (results.map Prod.fst) 0).map Prod.fst := rfl

theorem assemble_bot (ord : List String → List String) (routes : List JVal)
    (results : List (List String × Nat)) :
    (assemble ord routes results).bot =
      (pairsFrom
        (fun s => List.indexOf s (sortMols ((results.map Prod.fst).foldl addAll [])))
        ord (results.map Prod.fst) 0).map Prod.snd := rfl

theorem zip_map_fst_snd {α β : Type} : ∀ (l : List (α × β)),
    (l.map Prod.fst).zip (l.map Prod.snd) = l := by
  intro l
  induction l with
  | nil => rfl
  | cons x xs ih => simp [ih]

theorem assemble_zip (ord : List String → List String) (routes : List JVal)
    (results : List (List String × Nat)) :
    (assemble ord routes results).top.zip (assemble ord routes results).bot =
      pairsFrom
        (fun s => List.indexOf s (sortMols ((results.map Prod.fst).foldl addAll [])))
        ord (results.map Prod.fst) 0 := by
  rw [assemble_top, assemble_bot, zip_map_fst_snd]

theorem metasFrom_length : ∀ (L : List (JVal × Nat)) (i : Nat),
    (metasFrom L i).length = L.length := by
  intro L
  induction L with
  | nil => intro i; rfl
  | cons x xs ih =>
      intro i
      rw [metasFrom]
      simp [ih]

theorem metasFrom_getElem? : ∀ (L : List (JVal × Nat)) (i j : Nat),
    (metasFrom L i)[j]? = (L[j]?).map (fun rp => mkMeta rp.1 rp.2 (i + j)) := by
  intro L
  induction L with
  | nil => intro i j; simp [metasFrom]
  | cons x xs ih =>
      intro i j
      rw [metasFrom]
      cases j with
      | zero => simp
      | succ j2 =>
          simp only [List.getElem?_cons_succ]
          rw [ih (i + 1) j2]
          have : i + 1 + j2 = i + (j2 + 1) := by omega
          rw [this]

theorem mem_metasFrom_edge_id : ∀ (L : List (JVal × Nat)) (i : Nat)
    (mm : RouteMeta), mm ∈ metasFrom L i →
    i ≤ mm.edge_id ∧ mm.edge_id < i + L.length := by
  intro L
  induction L with
  | nil => intro i mm h; simp [metasFrom] at h
  | cons x xs ih =>
      intro i mm h
      rw [metasFrom] at h
      rcases List.mem_cons.mp h with h1 | h2
      · subst h1
        have he : (mkMeta x.1 x.2 i).edge_id = i := rfl
        simp only [List.length_cons]
        omega
      · have := ih (i + 1) mm h2
        simp only [List.length_cons]
        omega

theorem metasFrom_rev_find? : ∀ (L : List (JVal × Nat)) (i e : Nat)
    (rp : JVal × Nat), L[e - i]? = some rp → i ≤ e →
    (metasFrom L i).reverse.find? (fun mm => mm.edge_id == e) =
      some (mkMeta rp.1 rp.2 e) := by
  intro L
  induction L with
  | nil => intro i e rp h hle; simp at h
  | cons x xs ih =>
      intro i e rp h hle
      rw [metasFrom]
      simp only [List.reverse_cons]
      rw [List.find?_append]
      by_cases he : e = i
      · subst he
        have hx : x = rp := by
          simp at h
          exact h
        subst hx
        have hnone : (metasFrom xs (e + 1)).reverse.find?
            (fun mm => mm.edge_id == e) = none := by
          apply List.find?_eq_none.mpr
          intro mm hmm
          have hmem := List.mem_reverse.mp hmm
          have hb := mem_metasFrom_edge_id xs (e + 1) mm hmem
          simp
          omega
        rw [hnone]
        simp [mkMeta]
      · have hgt : i + 1 ≤ e := by omega
        have hsub : e - i = (e - (i + 1)) + 1 := by omega
        rw [hsub] at h
        simp only [List.getElem?_cons_succ] at h
        rw [ih (i + 1) e rp h hgt]
        simp [Option.or]

theorem metaName_metasFrom (L : List (JVal × Nat)) (e : Nat) (rp : JVal × Nat)
    (h : L[e]? = some rp) :
    metaName (metasFrom L 0) e = (mkMeta rp.1 rp.2 e).edge_name := by
  unfold metaName
  rw [metasFrom_rev_find? L 0 e rp (by simpa using h) (Nat.zero_le e)]

theorem metaTarget_metasFrom (L : List (JVal × Nat)) (e : Nat) (rp : JVal × Nat)
    (h : L[e]? = some rp) :
    metaTarget (metasFrom L 0) e = (mkMeta rp.1 rp.2 e).target := by
  unfold metaTarget
  rw [metasFrom_rev_find? L 0 e rp (by simpa using h) (Nat.zero_le e)]

theorem pairsFrom_snd_bounds (f : String → Nat) (ord : List String → List String) :
    ∀ (L : List (List String)) (i : Nat) (p : Nat × Nat),
    p ∈ pairsFrom f ord L i → i ≤ p.2 ∧ p.2 < i + L.length := by
  intro L
  induction L with
  | nil => intro i p h; simp [pairsFrom] at h
  | cons x xs ih =>
      intro i p h
      rw [pairsFrom] at h
      rcases List.mem_append.mp h with h1 | h2
      · obtain ⟨s, _, hp⟩ := List.mem_map.mp h1
        cases hp
        simp
      · have := ih (i + 1) p h2
        simp only [List.length_cons]
        omega

theorem mem_pairsFrom (f : String → Nat) (ord : List String → List String) :
    ∀ (L : List (List String)) (i : Nat) (m e : Nat),
    (m, e) ∈ pairsFrom f ord L i ↔
      ∃ j mols, L[j]? = some mols ∧ e = i + j ∧ ∃ s ∈ ord mols, m = f s := by
  intro L
  induction L with
  | nil => intro i m e; simp [pairsFrom]
  | cons x xs ih =>
      intro i m e
      rw [pairsFrom, List.mem_append]
      constructor
      · rintro (h1 | h2)
        · obtain ⟨s, hs, hp⟩ := List.mem_map.mp h1
          injection hp with hm he
          exact ⟨0, x, by simp, by omega, s, hs, hm.symm⟩
        · obtain ⟨j, mols, hj, he, s, hs, hm⟩ := (ih (i + 1) m e).mp h2
          exact ⟨j + 1, mols, by simpa using hj, by omega, s, hs, hm⟩
      · rintro ⟨j, mols, hj, he, s, hs, hm⟩
        cases j with
        | zero =>
            left
            simp only [List.getElem?_cons_zero, Option.some.injEq] at hj
            subst hj
            obtain rfl : e = i := by omega
            subst hm
            exact List.mem_map.mpr ⟨s, hs, rfl⟩
        | succ j2 =>
            right
            apply (ih (i + 1) m e).mpr
            exact ⟨j2, mols, by simpa using hj, by omega, s, hs, hm⟩

theorem nodup_pairsFrom (f : String → Nat) (ord : List String → List String) :
    ∀ (L : List (List String)) (i : Nat),
    (∀ mols ∈ L, (ord mols).Nodup) →
    (∀ mols ∈ L, ∀ s1 ∈ ord mols, ∀ s2 ∈ ord mols, f s1 = f s2 → s1 = s2) →
    (pairsFrom f ord L i).Nodup := by
  intro L
  induction L with
  | nil => intro i _ _; simp [pairsFrom]
  | cons x xs ih =>
      intro i hnd hinj
      rw [pairsFrom]
      refine List.nodup_append.mpr ⟨?_, ?_, ?_⟩
      · apply List.Nodup.map_on ?_ (hnd x (by simp))
        intro s1 h1 s2 h2 heq
        injection heq with hf _
        exact hinj x (by simp) s1 h1 s2 h2 hf
      · exact ih (i + 1) (fun m hm => hnd m (by simp [hm]))
          (fun m hm => hinj m (by simp [hm]))
      · intro p hp1 hp2
        obtain ⟨s, _, hp⟩ := List.mem_map.mp hp1
        have hb := pairsFrom_snd_bounds f ord xs (i + 1) p hp2
        cases hp
        simp at hb

theorem pairsFrom_perm (f : String → Nat) (ord1 ord2 : List String → List String)
    (hperm : ∀ l, List.Perm (ord1 l) (ord2 l)) :
    ∀ (L : List (List String)) (i : Nat),
    List.Perm (pairsFrom f ord1 L i) (pairsFrom f ord2 L i) := by
  intro L
  induction L with
  | nil => intro i; exact List.Perm.refl _
  | cons x xs ih =>
      intro i
      rw [pairsFrom, pairsFrom]
      exact ((hperm x).map _).append (ih (i + 1))

theorem nodeRowsFrom_getElem? : ∀ (L : List String) (i j : Nat),
    (nodeRowsFrom i L)[j]? = (L[j]?).map (fun s => [toString (i + j), s]) := by
  intro L
  induction L with
  | nil => intro i j; simp [nodeRowsFrom]
  | cons x xs ih =>
      intro i j
      rw [nodeRowsFrom]
      cases j with
      | zero => simp
      | succ j2 =>
          simp only [List.getElem?_cons_succ]
          rw [ih (i + 1) j2]
          have h2 : i + 1 + j2 = i + (j2 + 1) := by omega
          rw [h2]

theorem zip_self_map_getElem? {α β : Type} (g : α → β) :
    ∀ (l : List α) (i : Nat),
    (l.zip (l.map g))[i]? = (l[i]?).map (fun a => (a, g a)) := by
  intro l
  induction l with
  | nil => intro i; simp
  | cons x xs ih =>
      intro i
      cases i with
      | zero => simp
      | succ i2 => simpa using ih i2

theorem buildOrdered_id_to_mol (ord : List String → List String)
    (routes : List JVal) :
    (buildOrdered ord routes).id_to_mol =
      sortMols ((routes.map
        (fun r => (gather_molecules_and_reaction_count r).1)).foldl addAll []) := by
  rw [buildOrdered, assemble_id_to_mol, List.map_map]
  rfl

theorem mem_build_id_to_mol (ord : List String → List String)
    (routes : List JVal) (s : String) :
    s ∈ (buildOrdered ord routes).id_to_mol ↔
      ∃ r ∈ routes, s ∈ (gather_molecules_and_reaction_count r).1 := by
  rw [buildOrdered_id_to_mol, sortMols_mem, mem_foldl_addAll]
  simp

theorem nodup_build_id_to_mol (ord : List String → List String)
    (routes : List JVal) : (buildOrdered ord routes).id_to_mol.Nodup := by
  rw [buildOrdered_id_to_mol]
  exact sortMols_nodup (nodup_foldl_addAll _ [] List.nodup_nil)

theorem sorted_build_id_to_mol (ord : List String → List String)
    (routes : List JVal) :
    List.Sorted (fun a b => strLe a b = true)
      (buildOrdered ord routes).id_to_mol := by
  rw [buildOrdered_id_to_mol]
  exact sortMols_sorted _

theorem nodup_gather_mols (r : JVal) :
    (gather_molecules_and_reaction_count r).1.Nodup := by
  rw [gather_eq]
  exact nodup_addAll _ [] List.nodup_nil

theorem mem_gather_mols (r : JVal) (s : String) :
    s ∈ (gather_molecules_and_reaction_count r).1 ↔ s ∈ molsOf r := by
  rw [gather_eq]
  show s ∈ addAll [] (molsOf r) ↔ _
  rw [mem_addAll]
  simp

theorem buildOrdered_routes_meta (ord : List String → List String)
    (routes : List JVal) :
    (buildOrdered ord routes).routes_meta =
      metasFrom (routes.zip (routes.map
        (fun r => (gather_molecules_and_reaction_count r).2))) 0 := by
  rw [buildOrdered, assemble_routes_meta, List.map_map]
  rfl

theorem build_meta_getElem? (ord : List String → List String)
    (routes : List JVal) (i : Nat) :
    (buildOrdered ord routes).routes_meta[i]? =
      (routes[i]?).map
        (fun r => mkMeta r (gather_molecules_and_reaction_count r).2 i) := by
  rw [buildOrdered_routes_meta, metasFrom_getElem?, zip_self_map_getElem?]
  rw [Option.map_map]
  simp only [Nat.zero_add]
  rfl

theorem build_meta_length (ord : List String → List String)
    (routes : List JVal) :
    (buildOrdered ord routes).routes_meta.length = routes.length := by
  rw [buildOrdered_routes_meta, metasFrom_length, List.length_zip,
    List.length_map]
  omega

theorem buildOrdered_zip (ord : List String → List String)
    (routes : List JVal) :
    (buildOrdered ord routes).top.zip (buildOrdered ord routes).bot =
      pairsFrom (fun s => List.indexOf s (buildOrdered ord routes).id_to_mol)
        ord (routes.map (fun r => (gather_molecules_and_reaction_count r).1))
        0 := by
  rw [buildOrdered, assemble_zip,
    ← assemble_id_to_mol ord routes
      (List.map gather_molecules_and_reaction_count routes),
    List.map_map]
  rfl

/-- Relation between two route trees that are equal except that one
reaction-typed node (reached through children links) may have had any
of its own fields changed, with its type (still "reaction") and its
children left alone.  This captures a mutation of the identifier-like
payload of a single reaction node, the situation of the reaction
opacity property. -/
inductive MutReact : JVal → JVal → Prop where
  | refl (j : JVal) : MutReact j j
  | here (fa fb : List (String × JVal)) :
      getKey fa "type" = some (JVal.jstr "reaction") →
      getKey fb "type" = some (JVal.jstr "reaction") →
      getKey fa "children" = getKey fb "children" →
      MutReact (JVal.jobj fa) (JVal.jobj fb)
  | deeper (fa fb : List (String × JVal)) (l : List JVal) (i : Nat)
      (c c2 : JVal) :
      getKey fa "type" = getKey fb "type" →
      getKey fa "smiles" = getKey fb "smiles" →
      getKey fa "name" = getKey fb "name" →
      getKey fa "children" = some (JVal.jarr l) →
      getKey fb "children" = some (JVal.jarr (l.set i c2)) →
      l[i]? = some c →
      MutReact c c2 →
      MutReact (JVal.jobj fa) (JVal.jobj fb)

theorem stepState_congr {fa fb : List (String × JVal)}
    (ht : getKey fa "type" = getKey fb "type")
    (hs : getKey fa "smiles" = getKey fb "smiles") :
    stepState fa = stepState fb := by
  funext st
  unfold stepState
  rw [ht, hs]

theorem dfsList_set : ∀ (l : List JVal) (i : Nat) (c c2 : JVal),
    l[i]? = some c → (∀ st, dfs c st = dfs c2 st) →
    ∀ st, dfsList l st = dfsList (l.set i c2) st := by
  intro l
  induction l with
  | nil => intro i c c2 h _ st; simp at h
  | cons x xs ih =>
      intro i c c2 h hdfs st
      cases i with
      | zero =>
          simp only [List.getElem?_cons_zero, Option.some.injEq] at h
          subst h
          simp only [List.set_cons_zero]
          rw [dfsList, dfsList, hdfs st]
      | succ i2 =>
          simp only [List.getElem?_cons_succ] at h
          simp only [List.set_cons_succ]
          rw [dfsList, dfsList]
          exact ih i2 c c2 h hdfs (dfs x st)

theorem mutReact_dfs {a b : JVal} (h : MutReact a b) :
    ∀ st, dfs a st = dfs b st := by
  induction h with
  | refl j => intro st; rfl
  | here fa fb hta htb hch =>
      intro st
      rw [dfs, dfs]
      have hc : childrenOf fa = childrenOf fb := by
        unfold childrenOf
        rw [hch]
      have hs : stepState fa st = stepState fb st := by
        unfold stepState
        rw [hta, htb]
        rfl
      rw [hc, hs]
  | deeper fa fb l i c c2 ht hsm hn hca hcb hic _ ih =>
      intro st
      rw [dfs, dfs]
      have hstep : stepState fa st = stepState fb st := by
        rw [stepState_congr ht hsm]
      have hcfa : childrenOf fa = l := by
        unfold childrenOf
        rw [hca]
      have hcfb : childrenOf fb = l.set i c2 := by
        unfold childrenOf
        rw [hcb]
      rw [hcfa, hcfb, hstep]
      exact dfsList_set l i c c2 hic ih (stepState fb st)

theorem mutReact_gather {a b : JVal} (h : MutReact a b) :
    gather_molecules_and_reaction_count a =
      gather_molecules_and_reaction_count b := by
  unfold gather_molecules_and_reaction_count
  exact mutReact_dfs h ([], 0)

theorem mutReact_rootNameTarget {a b : JVal} (h : MutReact a b) :
    rootNameTarget a = rootNameTarget b := by
  cases h with
  | refl j => rfl
  | here fa fb hta htb hch =>
      simp only [rootNameTarget]
      rw [hta, htb]
      simp [isMolType]
  | deeper fa fb l i c c2 ht hsm hn hca hcb hic hmut =>
      simp only [rootNameTarget]
      rw [ht, hsm, hn]

theorem mutReact_map_gather {rs rs2 : List JVal}
    (h : List.Forall₂ MutReact rs rs2) :
    rs.map gather_molecules_and_reaction_count =
      rs2.map gather_molecules_and_reaction_count := by
  induction h with
  | nil => rfl
  | cons hab _ ih =>
      simp only [List.map_cons]
      rw [ih, mutReact_gather hab]

theorem mutReact_metasFrom {rs rs2 : List JVal}
    (h : List.Forall₂ MutReact rs rs2) : ∀ (counts : List Nat) (i : Nat),
    metasFrom (rs.zip counts) i = metasFrom (rs2.zip counts) i := by
  induction h with
  | nil => intro counts i; rfl
  | cons hab _ ih =>
      intro counts i
      cases counts with
      | nil => rfl
      | cons cc ccs =>
          simp only [List.zip_cons_cons]
          rw [metasFrom, metasFrom]
          congr 1
          · unfold mkMeta
            rw [mutReact_rootNameTarget hab]
          · exact ih ccs (i + 1)

theorem buildResult_ext {b1 b2 : BuildResult} (h1 : b1.top = b2.top)
    (h2 : b1.bot = b2.bot) (h3 : b1.id_to_mol = b2.id_to_mol)
    (h4 : b1.routes_meta = b2.routes_meta) : b1 = b2 := by
  obtain ⟨t1, bo1, i1, r1⟩ := b1
  obtain ⟨t2, bo2, i2, r2⟩ := b2
  rw [BuildResult.mk.injEq]
  exact ⟨h1, h2, h3, h4⟩

theorem mutReact_build (ord : List String → List String) {rs rs2 : List JVal}
    (h : List.Forall₂ MutReact rs rs2) :
    buildOrdered ord rs = buildOrdered ord rs2 := by
  have hg := mutReact_map_gather h
  apply buildResult_ext
  · simp only [buildOrdered, assemble_top]
    rw [hg]
  · simp only [buildOrdered, assemble_bot]
    rw [hg]
  · simp only [buildOrdered, assemble_id_to_mol]
    rw [hg]
  · simp only [buildOrdered, assemble_routes_meta]
    rw [hg]
    exact mutReact_metasFrom h _ 0

/-- C2: on the concrete two-route scenario, build_hypergraph_per_route
produces the identifier table ["CC", "CCO"] with IDs 0 and 1, route A
metadata (edge 0, name "P1", target "CCO", one reaction), route B
metadata (edge 1, synthetic name "route_1", empty target, one
reaction), exactly the incidence pairs (0,0) and (1,0) for route A and
only (0,1) for route B, and the string "HIDDEN" nowhere in the bundle
or in any of the three CSV tables. -/
theorem claim2_concrete_scenario :
    (build_hypergraph_per_route [routeA, routeB]).id_to_mol = ["CC", "CCO"] ∧
    (build_hypergraph_per_route [routeA, routeB]).routes_meta =
      [{ edge_id := 0, edge_name := "P1", target := "CCO", reaction_count := 1 },
       { edge_id := 1, edge_name := "route_1", target := "", reaction_count := 1 }] ∧
    List.Perm
      (((build_hypergraph_per_route [routeA, routeB]).top.zip
        (build_hypergraph_per_route [routeA, routeB]).bot).filter
          (fun p => p.2 == 0))
      [(0, 0), (1, 0)] ∧
    ((build_hypergraph_per_route [routeA, routeB]).top.zip
        (build_hypergraph_per_route [routeA, routeB]).bot).filter
          (fun p => p.2 == 1) = [(0, 1)] ∧
    ((mkArtifactsOrdered idOrder [routeA, routeB]).bundle.id_to_mol.contains
      "HIDDEN") = false ∧
    ((mkArtifactsOrdered idOrder [routeA, routeB]).bundle.routes_meta.all
      (fun mm => !(mm.edge_name == "HIDDEN") && !(mm.target == "HIDDEN"))) = true ∧
    ((mkArtifactsOrdered idOrder [routeA, routeB]).nodes_csv.all
      (fun row => !(row.contains "HIDDEN"))) = true ∧
    ((mkArtifactsOrdered idOrder [routeA, routeB]).edges_csv.all
      (fun row => !(row.contains "HIDDEN"))) = true ∧
    ((mkArtifactsOrdered idOrder [routeA, routeB]).incidence_csv.all
      (fun row => !(row.contains "HIDDEN"))) = true := by
  have hb : build_hypergraph_per_route [routeA, routeB] =
      { top := [1, 0, 0], bot := [0, 0, 1], id_to_mol := ["CC", "CCO"],
        routes_meta :=
          [{ edge_id := 0, edge_name := "P1", target := "CCO", reaction_count := 1 },
           { edge_id := 1, edge_name := "route_1", target := "",
             reaction_count := 1 }] } := by
    rw [build_hypergraph_per_route, buildOrdered_exec]
    decide
  have ha : mkArtifactsOrdered idOrder [routeA, routeB] =
      artifactsOf (build_hypergraph_per_route [routeA, routeB]) := rfl
  rw [ha, hb]
  decide

/-- C7: when load_routes parses the whole text as one document, a
mapping is wrapped into a one-element sequence, a sequence keeps
exactly its mapping-shaped elements in their original order (dropping
non-mappings silently, as a sublist), and any other shape raises the
fatal input-format error. -/
theorem claim7_loader_shapes :
    (∀ fields : List (String × JVal),
      routesFromDoc (JVal.jobj fields) = Except.ok [JVal.jobj fields]) ∧
    (∀ items : List JVal,
      routesFromDoc (JVal.jarr items) =
        Except.ok (items.filter (fun x => isDictV x)) ∧
      (items.filter (fun x => isDictV x)).Sublist items ∧
      (∀ x : JVal, x ∈ items.filter (fun x => isDictV x) ↔
        x ∈ items ∧ isDictV x = true)) ∧
    (∀ d : JVal, isDictV d = false → isArrV d = false →
      routesFromDoc d = Except.error "Unrecognized JSON structure.") := by
  refine ⟨fun fields => rfl,
    fun items => ⟨rfl, List.filter_sublist items,
      fun x => by simp [List.mem_filter]⟩, ?_⟩
  intro d h1 h2
  cases d with
  | jobj f => simp [isDictV] at h1
  | jarr l => simp [isArrV] at h2
  | jnull => rfl
  | jbool b => rfl
  | jnum n => rfl
  | jstr s => rfl

theorem claim7_witness :
    routesFromDoc (JVal.jobj [("type", JVal.jstr "mol")]) =
      Except.ok [JVal.jobj [("type", JVal.jstr "mol")]] ∧
    routesFromDoc (JVal.jarr [JVal.jnum 3, routeB, JVal.jstr "x"]) =
      Except.ok [routeB] ∧
    routesFromDoc (JVal.jstr "x") =
      Except.error "Unrecognized JSON structure." := by
  refine ⟨claim7_loader_shapes.1 [("type", JVal.jstr "mol")], ?_,
    claim7_loader_shapes.2.2 (JVal.jstr "x") rfl rfl⟩
  have h := (claim7_loader_shapes.2.1 [JVal.jnum 3, routeB, JVal.jstr "x"]).1
  rw [h]
  rfl

/-- C8: a loader failure or an empty route list makes the run abort
with an error, so no artifact value exists at all, while a successful
run yields all four artifacts computed from the one build result of
the loaded routes. -/
theorem claim8_abort_before_write :
    (∀ e : String, runMain (Except.error e) = Except.error e) ∧
    runMain (Except.ok []) = Except.error "No routes loaded." ∧
    (∀ d : JVal, isDictV d = false → isArrV d = false →
      runMain (routesFromDoc d) =
        Except.error "Unrecognized JSON structure.") ∧
    (∀ routes : List JVal, routes ≠ [] →
      runMain (Except.ok routes) =
        Except.ok (artifactsOf (build_hypergraph_per_route routes))) ∧
    (∀ (loaded : Except String (List JVal)) (a : Artifacts),
      runMain loaded = Except.ok a →
      ∃ routes, loaded = Except.ok routes ∧ routes ≠ [] ∧
        a.bundle = build_hypergraph_per_route routes ∧
        a.nodes_csv = nodesTable a.bundle.id_to_mol ∧
        a.edges_csv = edgesTable a.bundle.routes_meta ∧
        a.incidence_csv = incidenceTable a.bundle.top a.bundle.bot
          a.bundle.id_to_mol a.bundle.routes_meta) := by
  refine ⟨fun e => rfl, rfl, ?_, ?_, ?_⟩
  · intro d h1 h2
    cases d with
    | jobj f => simp [isDictV] at h1
    | jarr l => simp [isArrV] at h2
    | jnull => rfl
    | jbool b => rfl
    | jnum n => rfl
    | jstr s => rfl
  · intro routes hne
    cases routes with
    | nil => exact absurd rfl hne
    | cons r rs => rfl
  · intro loaded a ha
    cases loaded with
    | error e => simp [runMain, runPipelineOrdered] at ha
    | ok routes =>
        cases routes with
        | nil => simp [runMain, runPipelineOrdered] at ha
        | cons r rs =>
            have hval : mkArtifactsOrdered idOrder (r :: rs) = a := by
              simpa [runMain, runPipelineOrdered] using ha
            subst hval
            exact ⟨r :: rs, rfl, by simp, rfl, rfl, rfl, rfl⟩

theorem claim8_witness :
    runMain (Except.error "boom") = Except.error "boom" ∧
    runMain (routesFromDoc (JVal.jnum 7)) =
      Except.error "Unrecognized JSON structure." ∧
    runMain (Except.ok [routeB]) =
      Except.ok (artifactsOf (build_hypergraph_per_route [routeB])) :=
  ⟨claim8_abort_before_write.1 "boom",
   claim8_abort_before_write.2.2.1 (JVal.jnum 7) rfl rfl,
   claim8_abort_before_write.2.2.2.1 [routeB] (by simp)⟩

/-- C3: mutating the identifier-bearing payload of one reaction-typed
node (any of its own fields, type and children excepted) in any route
leaves the reducer results and the whole build output (identifier
table, incidence list, metadata) unchanged: a two-run noninterference
statement. -/
theorem claim3_reaction_opacity (rs rs2 : List JVal)
    (h : List.Forall₂ MutReact rs rs2) :
    rs.map gather_molecules_and_reaction_count =
      rs2.map gather_molecules_and_reaction_count ∧
    build_hypergraph_per_route rs = build_hypergraph_per_route rs2 :=
  ⟨mutReact_map_gather h, mutReact_build idOrder h⟩

/-- Reaction node of route A with the hidden smiles replaced, for the
reaction opacity witness. -/
def rxnNodeA2 : JVal :=
  JVal.jobj [("type", JVal.jstr "reaction"), ("smiles", JVal.jstr "XYZ"),
    ("children", JVal.jarr [molNode "CC"])]

/-- Route A with the reaction smiles payload mutated. -/
def routeA2 : JVal :=
  JVal.jobj [("type", JVal.jstr "mol"), ("name", JVal.jstr "P1"),
    ("smiles", JVal.jstr "CCO"), ("children", JVal.jarr [rxnNodeA2])]

theorem claim3_witness :
    [routeA].map gather_molecules_and_reaction_count =
      [routeA2].map gather_molecules_and_reaction_count ∧
    build_hypergraph_per_route [routeA] = build_hypergraph_per_route [routeA2] :=
  claim3_reaction_opacity [routeA] [routeA2]
    (List.Forall₂.cons
      (MutReact.deeper _ _ [rxnNodeA] 0 rxnNodeA rxnNodeA2
        rfl rfl rfl rfl rfl rfl
        (MutReact.here _ _ rfl rfl rfl))
      List.Forall₂.nil)

/-- Edge name exactly as claim C4 words it (the raw, untrimmed name):
when the root is a mapping of type "mol" with a name that is a string
and non-blank after trimming, that name verbatim; else, for a type
"mol" root, the non-empty string smiles; else the synthetic
route_i name. -/
def specEdgeNameLiteral (route : JVal) (i : Nat) : String :=
  match route with
  | JVal.jobj fields =>
      if isMolType (getKey fields "type") then
        match getKey fields "name" with
        | some (JVal.jstr n) =>
            if pyStrip n = "" then
              match getKey fields "smiles" with
              | some (JVal.jstr s2) =>
                  if s2 = "" then "route_" ++ toString i else s2
              | _ => "route_" ++ toString i
            else n
        | _ =>
            match getKey fields "smiles" with
            | some (JVal.jstr s2) =>
                if s2 = "" then "route_" ++ toString i else s2
            | _ => "route_" ++ toString i
      else "route_" ++ toString i
  | _ => "route_" ++ toString i

/-- Edge name of the naming policy as the code implements it (the
amended claim): the preferred name is emitted stripped; the smiles
fallback is emitted verbatim; everything else gets route_i. -/
def specEdgeName (route : JVal) (i : Nat) : String :=
  match route with
  | JVal.jobj fields =>
      if isMolType (getKey fields "type") then
        match pickName (getKey fields "name") with
        | some nm => nm
        | none =>
            match pickSmiles (getKey fields "smiles") with
            | some s2 => s2
            | none => "route_" ++ toString i
      else "route_" ++ toString i
  | _ => "route_" ++ toString i

/-- Target of the naming policy: the non-empty string smiles of a
type "mol" mapping root, else the empty string. -/
def specTarget (route : JVal) : String :=
  match route with
  | JVal.jobj fields =>
      if isMolType (getKey fields "type") then
        (pickSmiles (getKey fields "smiles")).getD ""
      else ""
  | _ => ""

theorem pickName_ne_empty {v : Option JVal} {nm : String}
    (h : pickName v = some nm) : ¬ nm = "" := by
  cases v with
  | none => simp [pickName] at h
  | some w =>
      cases w with
      | jstr n =>
          simp only [pickName] at h
          by_cases hb : pyStrip n = ""
          · simp [hb] at h
          · simp [hb] at h
            subst h
            exact hb
      | jnull => simp [pickName] at h
      | jbool b => simp [pickName] at h
      | jnum n => simp [pickName] at h
      | jarr l => simp [pickName] at h
      | jobj f => simp [pickName] at h

theorem pickSmiles_ne_empty {v : Option JVal} {s2 : String}
    (h : pickSmiles v = some s2) : ¬ s2 = "" := by
  cases v with
  | none => simp [pickSmiles] at h
  | some w =>
      cases w with
      | jstr n =>
          simp only [pickSmiles] at h
          by_cases hb : n = ""
          · simp [hb] at h
          · simp [hb] at h
            subst h
            exact hb
      | jnull => simp [pickSmiles] at h
      | jbool b => simp [pickSmiles] at h
      | jnum n => simp [pickSmiles] at h
      | jarr l => simp [pickSmiles] at h
      | jobj f => simp [pickSmiles] at h

theorem meta_edge_name_spec (r : JVal) (i : Nat) :
    finalEdgeName (rootNameTarget r).1 i = specEdgeName r i := by
  cases r with
  | jobj fields =>
      simp only [rootNameTarget, specEdgeName]
      by_cases hmol : isMolType (getKey fields "type") = true
      · simp only [hmol, if_pos]
        cases hpn : pickName (getKey fields "name") with
        | some nm =>
            have h1 : (some nm).orElse
                (fun _ => pickSmiles (getKey fields "smiles")) = some nm := rfl
            rw [h1, finalEdgeName]
            simp [pickName_ne_empty hpn]
        | none =>
            have h1 : (Option.none).orElse
                (fun _ => pickSmiles (getKey fields "smiles")) =
                pickSmiles (getKey fields "smiles") := rfl
            rw [h1]
            cases hps : pickSmiles (getKey fields "smiles") with
            | some s2 =>
                rw [finalEdgeName]
                simp [pickSmiles_ne_empty hps]
            | none => rw [finalEdgeName]
      · simp [hmol, finalEdgeName]
  | jnull => simp [rootNameTarget, specEdgeName, finalEdgeName]
  | jbool b => simp [rootNameTarget, specEdgeName, finalEdgeName]
  | jnum n => simp [rootNameTarget, specEdgeName, finalEdgeName]
  | jstr s => simp [rootNameTarget, specEdgeName, finalEdgeName]
  | jarr l => simp [rootNameTarget, specEdgeName, finalEdgeName]

theorem meta_target_spec (r : JVal) :
    (rootNameTarget r).2 = specTarget r := by
  cases r with
  | jobj fields =>
      simp only [rootNameTarget, specTarget]
      by_cases hmol : isMolType (getKey fields "type") = true
      · simp [hmol]
      · simp [hmol]
  | jnull => rfl
  | jbool b => rfl
  | jnum n => rfl
  | jstr s => rfl
  | jarr l => rfl

theorem build_meta_at (routes : List JVal) (i : Nat) (r : JVal)
    (h : routes[i]? = some r) :
    (build_hypergraph_per_route routes).routes_meta[i]? =
      some { edge_id := i, edge_name := specEdgeName r i,
             target := specTarget r,
             reaction_count := (gather_molecules_and_reaction_count r).2 } := by
  rw [build_hypergraph_per_route, build_meta_getElem?, h]
  simp only [Option.map_some']
  unfold mkMeta
  rw [meta_edge_name_spec, meta_target_spec]

/-- Route whose mol root has a name with surrounding whitespace, on
which the literal wording of claim C4 fails. -/
def c4Route : JVal :=
  JVal.jobj [("type", JVal.jstr "mol"), ("name", JVal.jstr "  P1  ")]

/-- C4 counterexample: with the name field "  P1  ", the emitted edge
name is the stripped "P1", not the raw name that the claim, read
literally, predicts. -/
theorem claim4_counterexample :
    ((build_hypergraph_per_route [c4Route]).routes_meta.map
      RouteMeta.edge_name) = ["P1"] ∧
    specEdgeNameLiteral c4Route 0 = "  P1  " ∧
    (("P1" : String) == "  P1  ") = false := by
  refine ⟨?_, by decide, by decide⟩
  rw [build_hypergraph_per_route, buildOrdered_exec]
  decide

/-- C4 (amended): the metadata record of the route at position i has
edge id i, the edge name of the naming policy with the preferred name
emitted stripped of surrounding whitespace (else verbatim non-empty
smiles, else the synthetic route_i), and the target equal to the
non-empty smiles of a mol root, else empty. -/
theorem claim4_edge_naming (routes : List JVal) (i : Nat) (r : JVal)
    (h : routes[i]? = some r) :
    (build_hypergraph_per_route routes).routes_meta[i]? =
      some { edge_id := i, edge_name := specEdgeName r i,
             target := specTarget r,
             reaction_count := (gather_molecules_and_reaction_count r).2 } :=
  build_meta_at routes i r h

theorem claim4_witness :
    (build_hypergraph_per_route [routeA, routeB]).routes_meta[1]? =
      some { edge_id := 1, edge_name := specEdgeName routeB 1,
             target := specTarget routeB,
             reaction_count := (gather_molecules_and_reaction_count routeB).2 } :=
  claim4_edge_naming [routeA, routeB] 1 routeB rfl

/-- C10: an edge name drawn from a mol root name field that is a
non-blank string is emitted trimmed of surrounding whitespace, while
an edge name drawn from the smiles fallback is emitted verbatim. -/
theorem claim10_trimming (routes : List JVal) (i : Nat)
    (fields : List (String × JVal))
    (h : routes[i]? = some (JVal.jobj fields))
    (hmol : isMolType (getKey fields "type") = true) :
    (∀ n : String, getKey fields "name" = some (JVal.jstr n) →
      pyStrip n ≠ "" →
      ((build_hypergraph_per_route routes).routes_meta[i]?).map
        RouteMeta.edge_name = some (pyStrip n)) ∧
    (pickName (getKey fields "name") = none →
      ∀ t : String, getKey fields "smiles" = some (JVal.jstr t) → t ≠ "" →
      ((build_hypergraph_per_route routes).routes_meta[i]?).map
        RouteMeta.edge_name = some t) := by
  constructor
  · intro n hn hne
    rw [build_meta_at routes i (JVal.jobj fields) h]
    simp only [Option.map_some']
    congr 1
    simp only [specEdgeName, hmol, if_pos, hn, pickName]
    simp [hne]
  · intro hpn t ht hte
    rw [build_meta_at routes i (JVal.jobj fields) h]
    simp only [Option.map_some']
    congr 1
    simp only [specEdgeName, hmol, if_pos, hpn, ht, pickSmiles]
    simp [hte]

/-- Route with a whitespace-padded name, for the trimming witness. -/
def c10Route : JVal :=
  JVal.jobj [("type", JVal.jstr "mol"), ("name", JVal.jstr "  P2  "),
    ("smiles", JVal.jstr "CCO")]

theorem claim10_witness :
    ((build_hypergraph_per_route [c10Route]).routes_meta[0]?).map
      RouteMeta.edge_name = some (pyStrip "  P2  ") ∧
    ((build_hypergraph_per_route [molNode "CC"]).routes_meta[0]?).map
      RouteMeta.edge_name = some "CC" :=
  ⟨(claim10_trimming [c10Route] 0
      [("type", JVal.jstr "mol"), ("name", JVal.jstr "  P2  "),
       ("smiles", JVal.jstr "CCO")] rfl rfl).1 "  P2  " rfl (by decide),
   (claim10_trimming [molNode "CC"] 0
      [("type", JVal.jstr "mol"), ("smiles", JVal.jstr "CC")] rfl rfl).2
      rfl "CC" rfl (by decide)⟩

/-- C5: the global identifier table is duplicate-free, sorted in the
lexicographic (code point) order, contains exactly the molecule
identifier strings the reducer collects across all routes, and is
invariant under any permutation of the input route order. -/
theorem claim5_global_table (routes : List JVal) :
    ((build_hypergraph_per_route routes).id_to_mol.Nodup ∧
     List.Sorted (fun a b => strLe a b = true)
       (build_hypergraph_per_route routes).id_to_mol ∧
     ∀ s : String, s ∈ (build_hypergraph_per_route routes).id_to_mol ↔
       ∃ r ∈ routes, s ∈ (gather_molecules_and_reaction_count r).1) ∧
    ∀ routes2 : List JVal, List.Perm routes routes2 →
      (build_hypergraph_per_route routes2).id_to_mol =
        (build_hypergraph_per_route routes).id_to_mol := by
  refine ⟨⟨nodup_build_id_to_mol idOrder routes,
    sorted_build_id_to_mol idOrder routes,
    fun s => mem_build_id_to_mol idOrder routes s⟩, ?_⟩
  intro routes2 hperm
  rw [build_hypergraph_per_route, build_hypergraph_per_route,
    buildOrdered_id_to_mol, buildOrdered_id_to_mol]
  apply sortMols_ext (nodup_foldl_addAll _ [] List.nodup_nil)
    (nodup_foldl_addAll _ [] List.nodup_nil)
  intro a
  rw [mem_foldl_addAll, mem_foldl_addAll]
  simp only [List.not_mem_nil, false_or, List.mem_map]
  constructor
  · rintro ⟨l, ⟨r, hr, rfl⟩, hal⟩
    exact ⟨_, ⟨r, hperm.mem_iff.mpr hr, rfl⟩, hal⟩
  · rintro ⟨l, ⟨r, hr, rfl⟩, hal⟩
    exact ⟨_, ⟨r, hperm.mem_iff.mp hr, rfl⟩, hal⟩

theorem claim5_witness :
    (build_hypergraph_per_route [routeB, routeA]).id_to_mol =
      (build_hypergraph_per_route [routeA, routeB]).id_to_mol :=
  (claim5_global_table [routeA, routeB]).2 [routeB, routeA]
    (List.Perm.swap routeB routeA [])

theorem mem_table_of_mem_gather {routes : List JVal} {r : JVal} {s : String}
    (hr : r ∈ routes) (hs : s ∈ (gather_molecules_and_reaction_count r).1) :
    s ∈ (buildOrdered idOrder routes).id_to_mol :=
  (mem_build_id_to_mol idOrder routes s).mpr ⟨r, hr, hs⟩

theorem indexOf_inj_of_mem {t : List String} {s1 s2 : String}
    (h1 : s1 ∈ t) (h2 : s2 ∈ t)
    (he : List.indexOf s1 t = List.indexOf s2 t) : s1 = s2 := by
  have g1 := List.getElem_indexOf (List.indexOf_lt_length.mpr h1)
  have g2 := List.getElem_indexOf (List.indexOf_lt_length.mpr h2)
  rw [← g1, ← g2]
  congr 1

/-- C6: a molecule identifier occurring on several mol nodes gets one
global ID (the table is duplicate-free), the incidence pair list has
no duplicate (molecule, route) pair, and the pairs carrying route
index i are exactly the image of that route's reducer set under the
global ID assignment. -/
theorem claim6_dedup_incidence (routes : List JVal) :
    (build_hypergraph_per_route routes).id_to_mol.Nodup ∧
    ((build_hypergraph_per_route routes).top.zip
      (build_hypergraph_per_route routes).bot).Nodup ∧
    ∀ (i : Nat) (r : JVal), routes[i]? = some r →
      ∀ m : Nat, ((m, i) ∈ (build_hypergraph_per_route routes).top.zip
          (build_hypergraph_per_route routes).bot ↔
        ∃ s ∈ (gather_molecules_and_reaction_count r).1,
          m = List.indexOf s (build_hypergraph_per_route routes).id_to_mol) := by
  refine ⟨nodup_build_id_to_mol idOrder routes, ?_, ?_⟩
  · rw [build_hypergraph_per_route, buildOrdered_zip]
    apply nodup_pairsFrom
    · intro mols hm
      obtain ⟨r, _, rfl⟩ := List.mem_map.mp hm
      exact nodup_gather_mols r
    · intro mols hm s1 h1 s2 h2 heq
      obtain ⟨r, hr, rfl⟩ := List.mem_map.mp hm
      exact indexOf_inj_of_mem (mem_table_of_mem_gather hr h1)
        (mem_table_of_mem_gather hr h2) heq
  · intro i r h m
    rw [build_hypergraph_per_route, buildOrdered_zip, mem_pairsFrom]
    constructor
    · rintro ⟨j, mols, hj, hij, hs⟩
      rw [List.getElem?_map] at hj
      obtain rfl : j = i := by omega
      rw [h] at hj
      simp only [Option.map_some', Option.some.injEq] at hj
      subst hj
      exact hs
    · rintro ⟨s, hs, hm⟩
      refine ⟨i, (gather_molecules_and_reaction_count r).1, ?_, by omega,
        s, hs, hm⟩
      rw [List.getElem?_map, h]
      rfl

theorem claim6_witness :
    ((0, 1) ∈ (build_hypergraph_per_route [routeA, routeB]).top.zip
        (build_hypergraph_per_route [routeA, routeB]).bot ↔
      ∃ s ∈ (gather_molecules_and_reaction_count routeB).1,
        0 = List.indexOf s
          (build_hypergraph_per_route [routeA, routeB]).id_to_mol) :=
  (claim6_dedup_incidence [routeA, routeB]).2.2 1 routeB rfl 0

/-- Reconstruction of the incidence CSV by joining the nodes table and
the edges table on the ids carried by the incidence pair list: column
1 of the nodes row at the molecule id gives the identifier, columns 1
and 2 of the edges row at the edge id give the edge name and target. -/
def joinIncidence (nodes edges : List (List String))
    (pairs : List (Nat × Nat)) : List (List String) :=
  ["node_id", "smiles", "edge_id", "edge_name", "target_smiles"] ::
    pairs.map (fun p =>
      [toString p.1, (((nodes.drop 1)[p.1]?).getD []).getD 1 "",
       toString p.2, (((edges.drop 1)[p.2]?).getD []).getD 1 "",
       (((edges.drop 1)[p.2]?).getD []).getD 2 ""])

theorem build_pairs_bounds (routes : List JVal) (p : Nat × Nat)
    (hp : p ∈ (build_hypergraph_per_route routes).top.zip
      (build_hypergraph_per_route routes).bot) :
    p.1 < (build_hypergraph_per_route routes).id_to_mol.length ∧
    p.2 < routes.length := by
  rw [build_hypergraph_per_route, buildOrdered_zip] at hp
  obtain ⟨m, e⟩ := p
  rw [mem_pairsFrom] at hp
  obtain ⟨j, mols, hj, he, s, hs, hm⟩ := hp
  rw [List.getElem?_map] at hj
  cases hr : routes[j]? with
  | none => rw [hr] at hj; simp at hj
  | some r =>
      rw [hr] at hj
      simp only [Option.map_some', Option.some.injEq] at hj
      subst hj
      have hjlt : j < routes.length := by
        by_contra hc
        rw [List.getElem?_eq_none (by omega)] at hr
        exact Option.noConfusion hr
      constructor
      · subst hm
        show List.indexOf s _ < _
        rw [build_hypergraph_per_route]
        apply List.indexOf_lt_length.mpr
        exact mem_table_of_mem_gather (List.getElem?_mem hr) hs
      · omega

/-- C9: the emitted incidence CSV equals, row for row, the join of the
nodes table and the edges table through the incidence pair list, so it
is exactly reconstructible from the other artifacts. -/
theorem claim9_incidence_join (routes : List JVal) :
    (mkArtifactsOrdered idOrder routes).incidence_csv =
      joinIncidence (mkArtifactsOrdered idOrder routes).nodes_csv
        (mkArtifactsOrdered idOrder routes).edges_csv
        ((mkArtifactsOrdered idOrder routes).bundle.top.zip
          (mkArtifactsOrdered idOrder routes).bundle.bot) := by
  show incidenceTable (build_hypergraph_per_route routes).top
      (build_hypergraph_per_route routes).bot
      (build_hypergraph_per_route routes).id_to_mol
      (build_hypergraph_per_route routes).routes_meta =
    joinIncidence (nodesTable (build_hypergraph_per_route routes).id_to_mol)
      (edgesTable (build_hypergraph_per_route routes).routes_meta)
      ((build_hypergraph_per_route routes).top.zip
        (build_hypergraph_per_route routes).bot)
  rw [incidenceTable, joinIncidence]
  congr 1
  apply List.map_congr_left
  intro p hp
  obtain ⟨hm, he⟩ := build_pairs_bounds routes p hp
  have hr2 : routes[p.2]? = some routes[p.2] := List.getElem?_eq_getElem he
  have hnode : ((nodesTable
      (build_hypergraph_per_route routes).id_to_mol).drop 1)[p.1]? =
      some [toString p.1,
        (build_hypergraph_per_route routes).id_to_mol[p.1]] := by
    rw [nodesTable]
    simp only [List.drop_succ_cons, List.drop_zero]
    rw [nodeRowsFrom_getElem?, List.getElem?_eq_getElem hm]
    simp
  have hmol : (build_hypergraph_per_route routes).id_to_mol.getD p.1 "" =
      (build_hypergraph_per_route routes).id_to_mol[p.1] := by
    rw [List.getD_eq_getElem?_getD, List.getElem?_eq_getElem hm]
    rfl
  have hmm : (build_hypergraph_per_route routes).routes_meta[p.2]? =
      some (mkMeta routes[p.2]
        (gather_molecules_and_reaction_count routes[p.2]).2 p.2) := by
    rw [build_hypergraph_per_route, build_meta_getElem?, hr2]
    rfl
  have hedge : ((edgesTable
      (build_hypergraph_per_route routes).routes_meta).drop 1)[p.2]? =
      some [toString p.2,
        (mkMeta routes[p.2]
          (gather_molecules_and_reaction_count routes[p.2]).2 p.2).edge_name,
        (mkMeta routes[p.2]
          (gather_molecules_and_reaction_count routes[p.2]).2 p.2).target,
        toString (mkMeta routes[p.2]
          (gather_molecules_and_reaction_count routes[p.2]).2
            p.2).reaction_count] := by
    rw [edgesTable]
    simp only [List.drop_succ_cons, List.drop_zero]
    rw [List.getElem?_map, hmm]
    rfl
  have hname : metaName (build_hypergraph_per_route routes).routes_meta p.2 =
      (mkMeta routes[p.2]
        (gather_molecules_and_reaction_count routes[p.2]).2 p.2).edge_name := by
    rw [build_hypergraph_per_route, buildOrdered_routes_meta]
    exact metaName_metasFrom _ p.2
      (routes[p.2], (gather_molecules_and_reaction_count routes[p.2]).2)
      (by rw [zip_self_map_getElem?, hr2]; rfl)
  have htarget : metaTarget (build_hypergraph_per_route routes).routes_meta
      p.2 =
      (mkMeta routes[p.2]
        (gather_molecules_and_reaction_count routes[p.2]).2 p.2).target := by
    rw [build_hypergraph_per_route, buildOrdered_routes_meta]
    exact metaTarget_metasFrom _ p.2
      (routes[p.2], (gather_molecules_and_reaction_count routes[p.2]).2)
      (by rw [zip_self_map_getElem?, hr2]; rfl)
  rw [hnode, hedge, hname, htarget, hmol]
  rfl

theorem claim9_witness :
    (mkArtifactsOrdered idOrder [routeA, routeB]).incidence_csv =
      joinIncidence (mkArtifactsOrdered idOrder [routeA, routeB]).nodes_csv
        (mkArtifactsOrdered idOrder [routeA, routeB]).edges_csv
        ((mkArtifactsOrdered idOrder [routeA, routeB]).bundle.top.zip
          (mkArtifactsOrdered idOrder [routeA, routeB]).bundle.bot) :=
  claim9_incidence_join [routeA, routeB]

/-- C1 (amended): two runs of the pipeline on the same loaded input,
each iterating the per-route molecule sets in its own order (any
permutation, as CPython set iteration under two hash seeds), fail
identically, and on success agree on the identifier table, the route
metadata, the nodes and edges tables, and agree on the incidence pair
sequence and incidence table up to order; the pair sequence itself can
differ in order, so byte-identical incidence output is not guaranteed
(see the counterexample). -/
theorem claim1_determinism_amended (o1 o2 : List String → List String)
    (h1 : ∀ l, List.Perm (o1 l) l) (h2 : ∀ l, List.Perm (o2 l) l)
    (loaded : Except String (List JVal)) :
    (∀ e : String, runPipelineOrdered o1 loaded = Except.error e ↔
      runPipelineOrdered o2 loaded = Except.error e) ∧
    (∀ a1 a2 : Artifacts, runPipelineOrdered o1 loaded = Except.ok a1 →
      runPipelineOrdered o2 loaded = Except.ok a2 →
      a1.bundle.id_to_mol = a2.bundle.id_to_mol ∧
      a1.bundle.routes_meta = a2.bundle.routes_meta ∧
      a1.nodes_csv = a2.nodes_csv ∧
      a1.edges_csv = a2.edges_csv ∧
      List.Perm (a1.bundle.top.zip a1.bundle.bot)
        (a2.bundle.top.zip a2.bundle.bot) ∧
      List.Perm a1.incidence_csv a2.incidence_csv) := by
  cases loaded with
  | error e0 =>
      refine ⟨fun e => Iff.rfl, ?_⟩
      intro a1 a2 ha1 _
      simp [runPipelineOrdered] at ha1
  | ok routes =>
      by_cases hemp : routes.isEmpty
      · refine ⟨fun e => ?_, ?_⟩
        · simp [runPipelineOrdered, hemp]
        · intro a1 a2 ha1 _
          simp [runPipelineOrdered, hemp] at ha1
      · have hid : (buildOrdered o1 routes).id_to_mol =
            (buildOrdered o2 routes).id_to_mol := by
          rw [buildOrdered_id_to_mol, buildOrdered_id_to_mol]
        have hmeta : (buildOrdered o1 routes).routes_meta =
            (buildOrdered o2 routes).routes_meta := by
          rw [buildOrdered_routes_meta, buildOrdered_routes_meta]
        have hzip : List.Perm
            ((buildOrdered o1 routes).top.zip (buildOrdered o1 routes).bot)
            ((buildOrdered o2 routes).top.zip (buildOrdered o2 routes).bot) := by
          rw [buildOrdered_zip, buildOrdered_zip, hid]
          exact pairsFrom_perm _ o1 o2 (fun l => (h1 l).trans (h2 l).symm) _ 0
        refine ⟨fun e => ?_, ?_⟩
        · simp [runPipelineOrdered, hemp]
        · intro a1 a2 ha1 ha2
          simp only [runPipelineOrdered, hemp, if_neg, Bool.false_eq_true,
            not_false_eq_true, Except.ok.injEq] at ha1 ha2
          subst ha1
          subst ha2
          refine ⟨hid, hmeta, ?_, ?_, hzip, ?_⟩
          · show nodesTable (buildOrdered o1 routes).id_to_mol =
              nodesTable (buildOrdered o2 routes).id_to_mol
            rw [hid]
          · show edgesTable (buildOrdered o1 routes).routes_meta =
              edgesTable (buildOrdered o2 routes).routes_meta
            rw [hmeta]
          · show List.Perm
              (incidenceTable (buildOrdered o1 routes).top
                (buildOrdered o1 routes).bot
                (buildOrdered o1 routes).id_to_mol
                (buildOrdered o1 routes).routes_meta)
              (incidenceTable (buildOrdered o2 routes).top
                (buildOrdered o2 routes).bot
                (buildOrdered o2 routes).id_to_mol
                (buildOrdered o2 routes).routes_meta)
            rw [incidenceTable, incidenceTable, hid, hmeta]
            exact List.Perm.cons _ (hzip.map _)

/-- Route whose molecule set holds two identifiers, showing the
incidence pair order depends on the set-iteration order. -/
def c1Route : JVal :=
  JVal.jobj [("type", JVal.jstr "reaction"),
    ("children", JVal.jarr [molNode "B", molNode "A"])]

/-- C1 counterexample: on the same input, the run that iterates the
molecule set in insertion order and the run that iterates it reversed
(both legitimate CPython set iteration orders, one per hash seed)
produce hyperedge_index top rows [1, 0] and [0, 1]: the pair sequences
differ in order, so the output artifacts are not byte-identical across
runs as the claim states. -/
theorem claim1_counterexample :
    Except.map (fun a => a.bundle.top)
      (runPipelineOrdered idOrder (Except.ok [c1Route])) =
      Except.ok [1, 0] ∧
    Except.map (fun a => a.bundle.top)
      (runPipelineOrdered revOrder (Except.ok [c1Route])) =
      Except.ok [0, 1] ∧
    (([1, 0] : List Nat) == [0, 1]) = false := by
  have e1 : runPipelineOrdered idOrder (Except.ok [c1Route]) =
      Except.ok (artifactsOf (buildOrdered idOrder [c1Route])) := rfl
  have e2 : runPipelineOrdered revOrder (Except.ok [c1Route]) =
      Except.ok (artifactsOf (buildOrdered revOrder [c1Route])) := rfl
  rw [e1, e2]
  simp only [buildOrdered_exec]
  exact ⟨by rfl, by rfl, by decide⟩

theorem claim1_witness :
    (artifactsOf (buildOrdered idOrder [routeA, routeB])).bundle.id_to_mol =
      (artifactsOf (buildOrdered revOrder [routeA, routeB])).bundle.id_to_mol ∧
    List.Perm
      ((artifactsOf (buildOrdered idOrder [routeA, routeB])).bundle.top.zip
        (artifactsOf (buildOrdered idOrder [routeA, routeB])).bundle.bot)
      ((artifactsOf (buildOrdered revOrder [routeA, routeB])).bundle.top.zip
        (artifactsOf (buildOrdered revOrder [routeA, routeB])).bundle.bot) := by
  have h := (claim1_determinism_amended idOrder revOrder
    (fun l => List.Perm.refl l) (fun l => l.reverse_perm)
    (Except.ok [routeA, routeB])).2
    (artifactsOf (buildOrdered idOrder [routeA, routeB]))
    (artifactsOf (buildOrdered revOrder [routeA, routeB])) rfl rfl
  exact ⟨h.1, h.2.2.2.2.1⟩
